import Mathlib

/-!
Verification of the coordinate-based Lohnjournal parser
(`lohnjournal_parser.py`).

The parser core is embedded shallowly: positioned text tokens are
records of a text string and exact rational coordinates, the numeric
normalizer `parse_german_number`, the column band tables `COLUMNS`,
the per-word field mapper, the row classifier and the per-page record
assembler are translated function by function from the source.
Floating point division by 100 is modelled exactly over `ℚ`
(both Python branches compute the digit run divided by 100).
-/

namespace Lohnjournal

/-- A positioned text token (pdfplumber word): `text`, left edge `x0`,
vertical offset `top`. -/
structure Word where
  text : String
  x0 : ℚ
  top : ℚ
deriving DecidableEq

/-- The Python whitespace characters relevant to `str.strip()`. -/
def isPySpace (c : Char) : Bool :=
  c == ' ' || c == '\t' || c == '\n' || c == '\r' || c == '\x0b' || c == '\x0c'

/-- `str.strip()` on a character list: drop leading and trailing whitespace. -/
def pyStripChars (l : List Char) : List Char :=
  ((l.dropWhile isPySpace).reverse.dropWhile isPySpace).reverse

/-- `str.strip()` on strings. -/
def pyStrip (s : String) : String := String.mk (pyStripChars s.toList)

/-- Python `str.isdigit()` (ASCII fragment): nonempty and all decimal digits. -/
def pyIsDigit (l : List Char) : Bool := !l.isEmpty && l.all Char.isDigit

/-- Read a digit run as a natural number (what Python `int(value)` does on a
digit-only string). -/
def digitsToNat (l : List Char) : ℕ := l.foldl (fun n c => 10 * n + (c.toNat - 48)) 0

/-- Third stage of `parse_german_number`: digit run (already filtered) and the
sign flag.  Python computes `int(value) / 100` when more than two digits remain
and `float(value) / 100` otherwise; over exact rationals both branches are the
digit run divided by 100 (the `ValueError` branch is unreachable: the run is a
nonempty digit string).  The division is written `Rat.divInt _ 100`, which is
the exact rational `_ / 100` (see `pgnDigits_val`). -/
def pgnDigits (ds : List Char) (isNeg : Bool) : Option ℚ :=
  if ds = [] then none
  else
    let r : ℚ := Rat.divInt (digitsToNat ds) 100
    some (if isNeg then -r else r)

/-- Second stage of `parse_german_number` on the stripped value: detect and
remove a trailing `-`, then delete every non-digit character
(`re.sub(r'[^\d]', '', value)`). -/
def pgnCore (v0 : List Char) : Option ℚ :=
  if v0.getLast? == some '-' then
    pgnDigits (v0.dropLast.filter Char.isDigit) true
  else
    pgnDigits (v0.filter Char.isDigit) false

/-- `parse_german_number`: DATEV number format, last two digits are cents,
optional trailing `-` negates; `''`/`'Z'`/`'E'`/whitespace-only is absent. -/
def parse_german_number (value : String) : Option ℚ :=
  if value.toList = [] ∨ pyStripChars value.toList = [] ∨
      pyStripChars value.toList = ['Z'] ∨ pyStripChars value.toList = ['E'] then
    none
  else
    pgnCore (pyStripChars value.toList)

/-- `EmployeeRecord`: one employee's payroll record, field for field as in the
Python dataclass.  Monetary amounts are exact rationals. -/
structure EmployeeRecord where
  pers_nr : String
  name : String := ""
  steuerklasse : Option String := none
  faktor : Option String := none
  ki_freibetrag : Option String := none
  steuerbrutto : Option ℚ := none
  pausch_verst_bezuege : Option ℚ := none
  kv_brutto : Option ℚ := none
  rv_brutto : Option ℚ := none
  av_brutto : Option ℚ := none
  pv_brutto : Option ℚ := none
  gesamtbrutto : Option ℚ := none
  lohnsteuer : Option ℚ := none
  pausch_lohnsteuer : Option ℚ := none
  kirchensteuer : Option ℚ := none
  pausch_kirchensteuer : Option ℚ := none
  solidaritaetszuschlag : Option ℚ := none
  pausch_solidaritaetszuschlag : Option ℚ := none
  foerderbetrag : Option ℚ := none
  kv_beitrag_an : Option ℚ := none
  rv_beitrag_an : Option ℚ := none
  av_beitrag_an : Option ℚ := none
  pv_beitrag_an : Option ℚ := none
  kv_beitrag_ag : Option ℚ := none
  rv_beitrag_ag : Option ℚ := none
  av_beitrag_ag : Option ℚ := none
  pv_beitrag_ag : Option ℚ := none
  umlage_1 : Option ℚ := none
  umlage_2 : Option ℚ := none
  umlage_insolvenz : Option ℚ := none
  netto_bezuege : Option ℚ := none
  auszahlungsbetrag : Option ℚ := none
  sv_tage : Option ℕ := none
  st_tage : Option ℕ := none
  sub_row_codes : List String := []
  raw_lines : List String := []
deriving DecidableEq

/-- The four row kinds: `main` is the Header row, the rest are continuation
rows keyed by their leading code. -/
inductive RowType where
  | main
  | tax
  | ag
  | minijob
deriving DecidableEq

/-- `COLUMNS`: the per-kind field band tables, `(field, min_x, max_x)`, in the
exact declaration order of the Python dict literals. -/
def COLUMNS : RowType → List (String × ℚ × ℚ)
  | RowType.main =>
      [("steuerklasse", 60, 78), ("faktor", 80, 115), ("ki_freibetrag", 95, 135),
       ("name", 140, 350), ("kv_brutto", 455, 510), ("rv_brutto", 515, 570),
       ("av_brutto", 575, 630), ("pv_brutto", 635, 690), ("umlage_1", 700, 745),
       ("gesamtbrutto", 765, 820)]
  | RowType.tax =>
      [("st_tage", 130, 155), ("steuerbrutto", 170, 225), ("lohnsteuer", 245, 310),
       ("kirchensteuer", 310, 380), ("solidaritaetszuschlag", 380, 445),
       ("kv_beitrag_an", 465, 510), ("rv_beitrag_an", 525, 570),
       ("av_beitrag_an", 592, 625), ("pv_beitrag_an", 652, 690),
       ("umlage_2", 705, 745), ("netto_bezuege", 775, 825)]
  | RowType.ag =>
      [("sv_tage", 130, 155), ("pausch_verst_bezuege", 185, 225),
       ("pausch_lohnsteuer", 268, 305), ("pausch_kirchensteuer", 345, 375),
       ("pausch_solidaritaetszuschlag", 418, 450), ("kv_beitrag_ag", 465, 510),
       ("rv_beitrag_ag", 525, 570), ("av_beitrag_ag", 590, 630),
       ("pv_beitrag_ag", 650, 690), ("umlage_insolvenz", 710, 745),
       ("auszahlungsbetrag", 765, 825)]
  | RowType.minijob =>
      [("sv_tage", 130, 155), ("pausch_verst_bezuege", 180, 230),
       ("pausch_lohnsteuer", 265, 310), ("kv_beitrag_ag", 465, 510),
       ("rv_beitrag_ag", 525, 570), ("umlage_insolvenz", 705, 745),
       ("auszahlungsbetrag", 775, 825)]

/-- `NUMERIC_FIELDS`: field names parsed with `parse_german_number`. -/
def NUMERIC_FIELDS : List String :=
  ["kv_brutto", "rv_brutto", "av_brutto", "pv_brutto", "gesamtbrutto",
   "steuerbrutto", "lohnsteuer", "kirchensteuer", "solidaritaetszuschlag",
   "kv_beitrag_an", "rv_beitrag_an", "av_beitrag_an", "pv_beitrag_an",
   "kv_beitrag_ag", "rv_beitrag_ag", "av_beitrag_ag", "pv_beitrag_ag",
   "umlage_1", "umlage_2", "umlage_insolvenz", "netto_bezuege", "auszahlungsbetrag",
   "pausch_verst_bezuege", "pausch_lohnsteuer", "pausch_kirchensteuer",
   "pausch_solidaritaetszuschlag"]

/-- `INT_FIELDS`. -/
def INT_FIELDS : List String := ["st_tage", "sv_tage"]

/-- `AG_ROW_CODES`: the fixed employer-row leading codes. -/
def AG_ROW_CODES : List String := ["01111", "00110"]

/-- `MINIJOB_ROW_CODES`: the fixed minijob-row leading codes. -/
def MINIJOB_ROW_CODES : List String := ["26500", "26100"]

/-- `TAX_ROW_CODES`: the fixed tax-row leading codes. -/
def TAX_ROW_CODES : List String := ["1", "2", "3", "4", "5", "6"]

/-- Numeric branch of `_set_field` (`setattr` on the matched field). -/
def setNumField (emp : EmployeeRecord) (f : String) (v : ℚ) : EmployeeRecord :=
  match f with
  | "kv_brutto" => { emp with kv_brutto := some v }
  | "rv_brutto" => { emp with rv_brutto := some v }
  | "av_brutto" => { emp with av_brutto := some v }
  | "pv_brutto" => { emp with pv_brutto := some v }
  | "gesamtbrutto" => { emp with gesamtbrutto := some v }
  | "steuerbrutto" => { emp with steuerbrutto := some v }
  | "lohnsteuer" => { emp with lohnsteuer := some v }
  | "kirchensteuer" => { emp with kirchensteuer := some v }
  | "solidaritaetszuschlag" => { emp with solidaritaetszuschlag := some v }
  | "kv_beitrag_an" => { emp with kv_beitrag_an := some v }
  | "rv_beitrag_an" => { emp with rv_beitrag_an := some v }
  | "av_beitrag_an" => { emp with av_beitrag_an := some v }
  | "pv_beitrag_an" => { emp with pv_beitrag_an := some v }
  | "kv_beitrag_ag" => { emp with kv_beitrag_ag := some v }
  | "rv_beitrag_ag" => { emp with rv_beitrag_ag := some v }
  | "av_beitrag_ag" => { emp with av_beitrag_ag := some v }
  | "pv_beitrag_ag" => { emp with pv_beitrag_ag := some v }
  | "umlage_1" => { emp with umlage_1 := some v }
  | "umlage_2" => { emp with umlage_2 := some v }
  | "umlage_insolvenz" => { emp with umlage_insolvenz := some v }
  | "netto_bezuege" => { emp with netto_bezuege := some v }
  | "auszahlungsbetrag" => { emp with auszahlungsbetrag := some v }
  | "pausch_verst_bezuege" => { emp with pausch_verst_bezuege := some v }
  | "pausch_lohnsteuer" => { emp with pausch_lohnsteuer := some v }
  | "pausch_kirchensteuer" => { emp with pausch_kirchensteuer := some v }
  | "pausch_solidaritaetszuschlag" => { emp with pausch_solidaritaetszuschlag := some v }
  | _ => emp

/-- Integer branch of `_set_field`. -/
def setIntField (emp : EmployeeRecord) (f : String) (n : ℕ) : EmployeeRecord :=
  match f with
  | "st_tage" => { emp with st_tage := some n }
  | "sv_tage" => { emp with sv_tage := some n }
  | _ => emp

/-- Raw-text branch of `_set_field` (`setattr(emp, field, text)`); the only
field names that reach it from the band tables are the three tax-class-like
text fields. -/
def setTextField (emp : EmployeeRecord) (f : String) (text : String) : EmployeeRecord :=
  match f with
  | "steuerklasse" => { emp with steuerklasse := some text }
  | "faktor" => { emp with faktor := some text }
  | "ki_freibetrag" => { emp with ki_freibetrag := some text }
  | _ => emp

/-- `_set_field`: type-directed field assignment. -/
def _set_field (emp : EmployeeRecord) (f : String) (text : String) : EmployeeRecord :=
  if f ∈ NUMERIC_FIELDS then
    match parse_german_number text with
    | some v => setNumField emp f v
    | none => emp
  else if f ∈ INT_FIELDS then
    if pyIsDigit text.toList then setIntField emp f (digitsToNat text.toList) else emp
  else setTextField emp f text

/-- `' '.join(w['text'] for w in words)`. -/
def joinTexts (ws : List Word) : String := String.intercalate " " (ws.map Word.text)

/-- First matching band for a left edge `x0`, in table-declaration order,
skipping the `name` entry — the inner `for field_name ... break` loop. -/
def findBand (cols : List (String × ℚ × ℚ)) (x0 : ℚ) : Option String :=
  match cols with
  | [] => none
  | (f, lo, hi) :: rest =>
      if f = "name" then findBand rest x0
      else if lo ≤ x0 ∧ x0 ≤ hi then some f
      else findBand rest x0

/-- The name band of a kind's table, when present (`columns['name']`). -/
def nameBand (rt : RowType) : Option (ℚ × ℚ) :=
  ((COLUMNS rt).find? (fun e => e.1 == "name")).map Prod.snd

/-- The special name-accumulation test: Header row, token inside the name
band, and the token is not purely numeric-looking once `.` and `,` are
removed. -/
def isNameFragment (rt : RowType) (x0 : ℚ) (text : String) : Bool :=
  match rt, nameBand rt with
  | RowType.main, some (lo, hi) =>
      decide (lo ≤ x0) && decide (x0 ≤ hi) &&
        !(pyIsDigit (text.toList.filter (fun c => !(c == '.' || c == ','))))
  | _, _ => false

/-- `f"{emp.name} {text}".strip() if emp.name else text`. -/
def appendName (name text : String) : String :=
  if name = "" then text else pyStrip (name ++ " " ++ text)

/-- One loop iteration of `_parse_row` over a single word. -/
def parseRowWord (rt : RowType) (skipX : ℚ) (emp : EmployeeRecord) (w : Word) :
    EmployeeRecord :=
  if w.x0 < skipX ∨ w.text = "Z" ∨ w.text = "E" then emp
  else if isNameFragment rt w.x0 w.text then
    { emp with name := appendName emp.name w.text }
  else
    match findBand (COLUMNS rt) w.x0 with
    | some f => _set_field emp f w.text
    | none => emp

/-- `re.sub(r'\s*NB\s*$', '', name)`: remove a trailing `NB` marker together
with the whitespace around it. -/
def removeNBSuffix (l : List Char) : List Char :=
  match l.reverse.dropWhile isPySpace with
  | 'B' :: 'N' :: rest => (rest.dropWhile isPySpace).reverse
  | _ => l

/-- The final name cleanup of `_parse_row`: NB-marker removal then `strip()`. -/
def cleanName (s : String) : String :=
  pyStrip (String.mk (removeNBSuffix s.toList))

/-- `_parse_row`: append the reconstructed text for Header rows, map every
word, then clean the accumulated name on Header rows. -/
def _parse_row (emp : EmployeeRecord) (words : List Word) (rt : RowType)
    (skipX : ℚ) : EmployeeRecord :=
  let emp0 := if rt = RowType.main then
      { emp with raw_lines := emp.raw_lines ++ [joinTexts words] }
    else emp
  let emp1 := words.foldl (parseRowWord rt skipX) emp0
  if rt = RowType.main ∧ emp1.name ≠ "" then { emp1 with name := cleanName emp1.name }
  else emp1

/-- The Header test on a row's first word: 5-digit numeric token, not an
employer-row or minijob-row code, left edge inside the left margin band. -/
def isHeaderTok (w : Word) : Prop :=
  pyIsDigit w.text.toList = true ∧ w.text.length = 5 ∧
    w.text ∉ AG_ROW_CODES ∧ w.text ∉ MINIJOB_ROW_CODES ∧ w.x0 < 35

instance (w : Word) : Decidable (isHeaderTok w) := by
  unfold isHeaderTok; infer_instance

/-- In-page parser state: sealed records so far and the currently open
record. -/
structure PageState where
  employees : List EmployeeRecord
  current : Option EmployeeRecord
deriving DecidableEq

/-- Seal the open record, if any (`self.employees.append(current_emp)`). -/
def sealCurrent (st : PageState) : List EmployeeRecord :=
  match st.current with
  | some e => st.employees ++ [e]
  | none => st.employees

/-- `current_emp.raw_lines.append(' '.join(...))`. -/
def withRowText (e : EmployeeRecord) (rowWords : List Word) : EmployeeRecord :=
  { e with raw_lines := e.raw_lines ++ [joinTexts rowWords] }

/-- `current_emp.sub_row_codes.append(first)`. -/
def withCode (e : EmployeeRecord) (code : String) : EmployeeRecord :=
  { e with sub_row_codes := e.sub_row_codes ++ [code] }

/-- One iteration of the `_parse_page` row loop: classify the row by its first
token and update the state. -/
def classifyStep (st : PageState) (rowWords : List Word) : PageState :=
  match rowWords with
  | [] => st
  | w0 :: _ =>
    let first := w0.text
    if isHeaderTok w0 then
      ⟨sealCurrent st, some (_parse_row { pers_nr := first } rowWords RowType.main 60)⟩
    else
      match st.current with
      | none => st
      | some emp =>
        let emp := withRowText emp rowWords
        if first ∈ TAX_ROW_CODES then
          ⟨st.employees,
           some (_parse_row (withCode emp first) rowWords RowType.tax 130)⟩
        else if first ∈ AG_ROW_CODES then
          ⟨st.employees,
           some (_parse_row (withCode emp first) rowWords RowType.ag 65)⟩
        else if first ∈ MINIJOB_ROW_CODES then
          ⟨st.employees,
           some (_parse_row (withCode emp first) rowWords RowType.minijob 65)⟩
        else ⟨st.employees, some emp⟩

/-- Python `round()` (banker's rounding) on an exact rational.  With
`f = ⌊q⌋`, the fractional part `q - f` equals `(q.num - f * q.den) / q.den`,
so comparing it against `1/2` is the integer comparison of
`2 * (q.num - f * q.den)` against `q.den`. -/
def pyRound (q : ℚ) : ℤ :=
  let f := ⌊q⌋
  let t := 2 * (q.num - f * q.den)
  if t < (q.den : ℤ) then f
  else if (q.den : ℤ) < t then f + 1
  else if f % 2 = 0 then f else f + 1

/-- Exact halving, `q / 2`, written with `Rat.divInt` (see `half_eq`). -/
def half (q : ℚ) : ℚ := Rat.divInt q.num (2 * (q.den : ℤ))

/-- `round(word['top'] / 2) * 2`: the vertical bucket key. -/
def yKey (w : Word) : ℤ := pyRound (half w.top) * 2

/-- Stable insertion by ascending `x0` (ties keep earlier words first, like
Python's stable `sort`). -/
def insertByX (w : Word) : List Word → List Word
  | [] => [w]
  | v :: vs => if v.x0 < w.x0 then v :: insertByX w vs else w :: v :: vs

/-- Stable sort of a row's words by `x0`. -/
def sortByX : List Word → List Word
  | [] => []
  | w :: ws => insertByX w (sortByX ws)

/-- Insertion into an ascending key list. -/
def insertKey (k : ℤ) : List ℤ → List ℤ
  | [] => [k]
  | j :: js => if j < k then j :: insertKey k js else k :: j :: js

/-- Sort the distinct bucket keys ascending (`sorted(rows.items())`). -/
def sortKeys : List ℤ → List ℤ
  | [] => []
  | k :: ks => insertKey k (sortKeys ks)

/-- Deduplicate the bucket keys (a dict holds each key once). -/
def dedupKeys : List ℤ → List ℤ
  | [] => []
  | k :: ks => if k ∈ ks then dedupKeys ks else k :: dedupKeys ks

/-- The rows of a page, keyed and ordered as in `_parse_page`: bucket by
`yKey`, iterate buckets in ascending key order, words within a bucket sorted
by `x0`. -/
def pageRows (words : List Word) : List (ℤ × List Word) :=
  (sortKeys (dedupKeys (words.map yKey))).map
    (fun k => (k, sortByX (words.filter (fun w => yKey w == k))))

/-- One iteration of the `_parse_page` outer loop including the
`if not row_words or y_pos < 95: continue` filter. -/
def pageStep (st : PageState) (kr : ℤ × List Word) : PageState :=
  if kr.2 = [] ∨ kr.1 < 95 then st else classifyStep st kr.2

/-- `_parse_page`: run the row loop from a fresh open-record state and seal
the record still open at the end of the page. -/
def _parse_page (employees : List EmployeeRecord) (words : List Word) :
    List EmployeeRecord :=
  sealCurrent ((pageRows words).foldl pageStep ⟨employees, none⟩)

/-- `parse`: fold `_parse_page` over the qualifying pages in document order,
starting from an empty record list. -/
def parse (pages : List (List Word)) : List EmployeeRecord :=
  pages.foldl _parse_page []

/-- Bool version of the Header test on a whole row. -/
def isHeaderRow (rw : List Word) : Bool :=
  match rw with
  | [] => false
  | w0 :: _ => decide (isHeaderTok w0)

/-- The continuation code of a row, when its first token is in one of the
three fixed code sets. -/
def rowCode (rw : List Word) : Option String :=
  match rw with
  | [] => none
  | w0 :: _ =>
      if w0.text ∈ TAX_ROW_CODES ∨ w0.text ∈ AG_ROW_CODES ∨ w0.text ∈ MINIJOB_ROW_CODES
      then some w0.text else none

/-- The continuation codes contributed by a list of keyed rows (rows dropped
by the page filter contribute nothing). -/
def subRowCodesOf (krs : List (ℤ × List Word)) : List String :=
  krs.filterMap (fun kr => if kr.2 = [] ∨ kr.1 < 95 then none else rowCode kr.2)

/-- The reconstructed texts contributed by a list of keyed rows. -/
def rawTextsOf (krs : List (ℤ × List Word)) : List String :=
  krs.filterMap (fun kr => if kr.2 = [] ∨ kr.1 < 95 then none else some (joinTexts kr.2))

/-- Sanity: `Rat.divInt n 100` as used in `pgnDigits` is exact division
by 100. -/
theorem pgnDigits_val (n : ℤ) : Rat.divInt n 100 = (n : ℚ) / 100 := by
  rw [Rat.divInt_eq_div]; norm_num

/-- Sanity: `half` is exact division by 2. -/
theorem half_eq (q : ℚ) : half q = q / 2 := by
  have hden : (q.den : ℚ) ≠ 0 := by exact_mod_cast q.den_nz
  conv_rhs => rw [← Rat.num_div_den q]
  rw [half, Rat.divInt_eq_div]
  push_cast
  rw [div_div, mul_comm]

/-! ### Frame lemmas: field assignment never touches the identity or the
audit sequences -/

set_option maxHeartbeats 2000000 in
theorem setNumField_frame (emp : EmployeeRecord) (f : String) (v : ℚ) :
    (setNumField emp f v).raw_lines = emp.raw_lines ∧
    (setNumField emp f v).sub_row_codes = emp.sub_row_codes ∧
    (setNumField emp f v).pers_nr = emp.pers_nr ∧
    (setNumField emp f v).name = emp.name := by
  unfold setNumField
  split <;> exact ⟨rfl, rfl, rfl, rfl⟩

theorem setIntField_frame (emp : EmployeeRecord) (f : String) (n : ℕ) :
    (setIntField emp f n).raw_lines = emp.raw_lines ∧
    (setIntField emp f n).sub_row_codes = emp.sub_row_codes ∧
    (setIntField emp f n).pers_nr = emp.pers_nr ∧
    (setIntField emp f n).name = emp.name := by
  unfold setIntField
  split <;> exact ⟨rfl, rfl, rfl, rfl⟩

theorem setTextField_frame (emp : EmployeeRecord) (f text : String) :
    (setTextField emp f text).raw_lines = emp.raw_lines ∧
    (setTextField emp f text).sub_row_codes = emp.sub_row_codes ∧
    (setTextField emp f text).pers_nr = emp.pers_nr ∧
    (setTextField emp f text).name = emp.name := by
  unfold setTextField
  split <;> exact ⟨rfl, rfl, rfl, rfl⟩

theorem set_field_frame (emp : EmployeeRecord) (f text : String) :
    (_set_field emp f text).raw_lines = emp.raw_lines ∧
    (_set_field emp f text).sub_row_codes = emp.sub_row_codes ∧
    (_set_field emp f text).pers_nr = emp.pers_nr ∧
    (_set_field emp f text).name = emp.name := by
  unfold _set_field
  by_cases h1 : f ∈ NUMERIC_FIELDS
  · rw [if_pos h1]
    cases parse_german_number text with
    | none => exact ⟨rfl, rfl, rfl, rfl⟩
    | some v => exact setNumField_frame emp f v
  · rw [if_neg h1]
    by_cases h2 : f ∈ INT_FIELDS
    · rw [if_pos h2]
      by_cases h3 : pyIsDigit text.toList = true
      · rw [if_pos h3]; exact setIntField_frame emp f _
      · rw [if_neg h3]; exact ⟨rfl, rfl, rfl, rfl⟩
    · rw [if_neg h2]; exact setTextField_frame emp f text

theorem parseRowWord_frame (rt : RowType) (skipX : ℚ) (emp : EmployeeRecord)
    (w : Word) :
    (parseRowWord rt skipX emp w).raw_lines = emp.raw_lines ∧
    (parseRowWord rt skipX emp w).sub_row_codes = emp.sub_row_codes ∧
    (parseRowWord rt skipX emp w).pers_nr = emp.pers_nr := by
  unfold parseRowWord
  by_cases h1 : w.x0 < skipX ∨ w.text = "Z" ∨ w.text = "E"
  · rw [if_pos h1]; exact ⟨rfl, rfl, rfl⟩
  · rw [if_neg h1]
    by_cases h2 : isNameFragment rt w.x0 w.text = true
    · rw [if_pos h2]; exact ⟨rfl, rfl, rfl⟩
    · rw [if_neg h2]
      cases h3 : findBand (COLUMNS rt) w.x0 with
      | none => exact ⟨rfl, rfl, rfl⟩
      | some f =>
        have h := set_field_frame emp f w.text
        exact ⟨h.1, h.2.1, h.2.2.1⟩

theorem foldl_parseRowWord_frame (rt : RowType) (skipX : ℚ) (words : List Word)
    (emp : EmployeeRecord) :
    (words.foldl (parseRowWord rt skipX) emp).raw_lines = emp.raw_lines ∧
    (words.foldl (parseRowWord rt skipX) emp).sub_row_codes = emp.sub_row_codes ∧
    (words.foldl (parseRowWord rt skipX) emp).pers_nr = emp.pers_nr := by
  induction words generalizing emp with
  | nil => exact ⟨rfl, rfl, rfl⟩
  | cons w ws ih =>
    simp only [List.foldl_cons]
    have h1 := parseRowWord_frame rt skipX emp w
    have h2 := ih (parseRowWord rt skipX emp w)
    exact ⟨h2.1.trans h1.1, h2.2.1.trans h1.2.1, h2.2.2.trans h1.2.2⟩

theorem parse_row_effects (emp : EmployeeRecord) (words : List Word)
    (rt : RowType) (skipX : ℚ) :
    (_parse_row emp words rt skipX).raw_lines =
      (if rt = RowType.main then emp.raw_lines ++ [joinTexts words]
       else emp.raw_lines) ∧
    (_parse_row emp words rt skipX).sub_row_codes = emp.sub_row_codes ∧
    (_parse_row emp words rt skipX).pers_nr = emp.pers_nr := by
  simp only [_parse_row]
  by_cases hm : rt = RowType.main
  · rw [if_pos hm, if_pos hm]
    have hfold := foldl_parseRowWord_frame rt skipX words
      { emp with raw_lines := emp.raw_lines ++ [joinTexts words] }
    by_cases hn : rt = RowType.main ∧
        (words.foldl (parseRowWord rt skipX)
          { emp with raw_lines := emp.raw_lines ++ [joinTexts words] }).name ≠ ""
    · rw [if_pos hn]
      exact ⟨hfold.1, hfold.2.1, hfold.2.2⟩
    · rw [if_neg hn]
      exact ⟨hfold.1, hfold.2.1, hfold.2.2⟩
  · rw [if_neg hm, if_neg hm]
    have hfold := foldl_parseRowWord_frame rt skipX words emp
    by_cases hn : rt = RowType.main ∧
        (words.foldl (parseRowWord rt skipX) emp).name ≠ ""
    · exact absurd hn.1 hm
    · rw [if_neg hn]
      exact ⟨hfold.1, hfold.2.1, hfold.2.2⟩

/-! ### First-match band lookup -/

theorem findBand_eq_find? (x : ℚ) :
    ∀ cols : List (String × ℚ × ℚ),
      findBand cols x =
        ((cols.filter (fun e => !(e.1 == "name"))).find?
          (fun e => decide (e.2.1 ≤ x ∧ x ≤ e.2.2))).map Prod.fst := by
  intro cols
  induction cols with
  | nil => rfl
  | cons e rest ih =>
    obtain ⟨f, lo, hi⟩ := e
    by_cases hf : f = "name"
    · subst hf
      simp only [findBand, if_pos rfl, List.filter_cons]
      simpa using ih
    · by_cases hb : lo ≤ x ∧ x ≤ hi
      · simp [findBand, hf, hb, List.filter_cons, List.find?_cons]
      · simp [findBand, hf, hb, List.filter_cons, List.find?_cons, ih]

/-- C5 (amended): the band intervals of a kind's table are closed on both
ends and are **not** pairwise disjoint; a token's field is the first band in
table-declaration order (skipping the `name` entry) whose closed interval
contains the token's left edge. -/
theorem C5_amended_thm (rt : RowType) (x : ℚ) :
    findBand (COLUMNS rt) x =
      (((COLUMNS rt).filter (fun e => !(e.1 == "name"))).find?
        (fun e => decide (e.2.1 ≤ x ∧ x ≤ e.2.2))).map Prod.fst :=
  findBand_eq_find? x (COLUMNS rt)

/-- C5 (counterexample): the left edge `100` lies inside both the `faktor`
band `(80, 115)` and the `ki_freibetrag` band `(95, 135)` of the Header
table, so the bands are not pairwise disjoint; and the left edge `310` is
accepted by the `lohnsteuer` band `(245, 310)` at its right endpoint (a
closed, not half-open, interval) while also lying in `kirchensteuer`
`(310, 380)`.  Declaration order resolves both. -/
theorem C5_cex :
    ((COLUMNS RowType.main).filter
        (fun e => decide (e.2.1 ≤ (100 : ℚ) ∧ (100 : ℚ) ≤ e.2.2))).map Prod.fst =
      ["faktor", "ki_freibetrag"] ∧
    findBand (COLUMNS RowType.main) 100 = some "faktor" ∧
    findBand (COLUMNS RowType.tax) 310 = some "lohnsteuer" ∧
    ((COLUMNS RowType.tax).filter
        (fun e => decide (e.2.1 ≤ (310 : ℚ) ∧ (310 : ℚ) ≤ e.2.2))).map Prod.fst =
      ["lohnsteuer", "kirchensteuer"] := by decide

/-- C7 (amended): a token strictly left of the kind-specific minimum offset
`skip_x` is excluded from field mapping entirely (the record is unchanged by
it); a token at or to the right of `skip_x` is processed independently of
`skip_x` (name accumulation and band matching as if no offset were set). -/
theorem C7_amended_thm (rt : RowType) (skipX : ℚ) (emp : EmployeeRecord)
    (w : Word) :
    (w.x0 < skipX → parseRowWord rt skipX emp w = emp) ∧
    (skipX ≤ w.x0 → parseRowWord rt skipX emp w = parseRowWord rt w.x0 emp w) := by
  constructor
  · intro h
    unfold parseRowWord
    rw [if_pos (Or.inl h)]
  · intro hle
    by_cases hz : w.text = "Z" ∨ w.text = "E"
    · unfold parseRowWord
      rw [if_pos (Or.inr hz), if_pos (Or.inr hz)]
    · push_neg at hz
      have h1 : ¬(w.x0 < skipX ∨ w.text = "Z" ∨ w.text = "E") := by
        push_neg; exact ⟨hle, hz.1, hz.2⟩
      have h2 : ¬(w.x0 < w.x0 ∨ w.text = "Z" ∨ w.text = "E") := by
        push_neg; exact ⟨le_refl _, hz.1, hz.2⟩
      unfold parseRowWord
      rw [if_neg h1, if_neg h2]

theorem C7_witness :
    parseRowWord RowType.tax 130 { pers_nr := "00001" } ⟨"15", 100, 0⟩ =
      { pers_nr := "00001" } :=
  (C7_amended_thm RowType.tax 130 { pers_nr := "00001" } ⟨"15", 100, 0⟩).1
    (by decide)

/-- C7 (counterexample): in a tax row the kind-specific minimum offset is
`130`, yet a token whose left edge is exactly `130` is *not* excluded: it is
matched against the band table and assigns `st_tage`.  This refutes "tokens
at or left of the offset are excluded / only tokens strictly to the right
are matched". -/
theorem C7_cex :
    (parseRowWord RowType.tax 130 { pers_nr := "00001" } ⟨"15", 130, 0⟩).st_tage =
      some 15 ∧
    ({ pers_nr := "00001" } : EmployeeRecord).st_tage = none := by decide

/-- C10: a token whose text is exactly `Z` or exactly `E` is skipped before
any band matching, for every row kind: the record is left completely
unchanged — no numeric field, no raw-text field and no name accumulation. -/
theorem C10_thm (rt : RowType) (skipX : ℚ) (emp : EmployeeRecord) (w : Word)
    (h : w.text = "Z" ∨ w.text = "E") :
    parseRowWord rt skipX emp w = emp := by
  unfold parseRowWord
  rw [if_pos (Or.inr h)]

theorem C10_witness :
    parseRowWord RowType.main 60 { pers_nr := "00001" } ⟨"Z", 200, 0⟩ =
      { pers_nr := "00001" } :=
  C10_thm RowType.main 60 { pers_nr := "00001" } ⟨"Z", 200, 0⟩ (Or.inl rfl)

/-- C9: a Header row with the 5-digit left-margin token `12345` followed by
the name-band tokens `Jane` and `Doe` yields a record with
`pers_nr = "12345"` and `name = "Jane Doe"` (fragments joined by single
spaces); a trailing `NB` marker token, when present, is stripped from the
accumulated name. -/
theorem C9_thm :
    (parse [[⟨"12345", 10, 100⟩, ⟨"Jane", 150, 100⟩, ⟨"Doe", 200, 100⟩]]).map
        (fun e => (e.pers_nr, e.name)) = [("12345", "Jane Doe")] ∧
    (parse [[⟨"12345", 10, 100⟩, ⟨"Jane", 150, 100⟩, ⟨"Doe", 200, 100⟩,
             ⟨"NB", 250, 100⟩]]).map
        (fun e => (e.pers_nr, e.name)) = [("12345", "Jane Doe")] := by decide

/-- C2 (counterexample): a record produced by a Header row alone has
`raw_lines` of length 1 (the Header row's text is appended there) but
`sub_row_codes` of length 0, and the number of classified non-Header rows is
0 — the two sequences do not have equal length. -/
theorem C2_cex :
    (parse [[⟨"12345", 10, 100⟩]]).map
        (fun e => (e.raw_lines.length, e.sub_row_codes.length)) = [(1, 0)] ∧
    (1 : ℕ) ≠ 0 := by decide

/-- C3 (counterexample): a row with leading token `99999` at left edge `40`
(outside the left margin band, in no fixed code set) is *not* side-effect
free while a record is open: its reconstructed text is appended to the open
record's `raw_lines`, so the outputs with and without the row differ. -/
theorem C3_cex :
    (parse [[⟨"12345", 10, 100⟩, ⟨"99999", 40, 104⟩]]).map
        (fun e => e.raw_lines) = [["12345", "99999"]] ∧
    (parse [[⟨"12345", 10, 100⟩]]).map (fun e => e.raw_lines) = [["12345"]] ∧
    parse [[⟨"12345", 10, 100⟩, ⟨"99999", 40, 104⟩]] ≠
      parse [[⟨"12345", 10, 100⟩]] := by decide

/-- C1 (counterexample): a Header on page 1 and a tax continuation row on
page 2 (before any new Header).  The claim predicts the page-2 row is mapped
into the still-open record (`sub_row_codes = ["1"]`, `st_tage = 15`), but the
record is sealed at the end of page 1 and the page-2 row is dropped; the very
same two rows on a single page *are* mapped, showing the page boundary alone
causes the difference. -/
theorem C1_cex :
    (parse [[⟨"12345", 10, 100⟩], [⟨"1", 40, 100⟩, ⟨"15", 140, 100⟩]]).map
        (fun e => (e.pers_nr, e.sub_row_codes, e.st_tage)) =
      [("12345", [], none)] ∧
    (parse [[⟨"12345", 10, 100⟩, ⟨"1", 40, 104⟩, ⟨"15", 140, 104⟩]]).map
        (fun e => (e.pers_nr, e.sub_row_codes, e.st_tage)) =
      [("12345", ["1"], some 15)] ∧
    ([("12345", ([] : List String), (none : Option ℕ))] ≠
      [("12345", ["1"], some 15)]) := by decide

/-! ### Lemmas about stripping and digit runs -/

theorem dropWhile_eq_self_of_no_space (l : List Char)
    (h : ∀ c ∈ l, isPySpace c = false) : l.dropWhile isPySpace = l := by
  cases l with
  | nil => rfl
  | cons a t =>
    rw [List.dropWhile_cons, h a (List.mem_cons_self a t)]
    simp

theorem pyStripChars_id (l : List Char) (h : ∀ c ∈ l, isPySpace c = false) :
    pyStripChars l = l := by
  unfold pyStripChars
  rw [dropWhile_eq_self_of_no_space l h,
    dropWhile_eq_self_of_no_space l.reverse
      (fun c hc => h c (List.mem_reverse.mp hc)),
    List.reverse_reverse]

theorem dropWhile_eq_nil_of_all_space (l : List Char)
    (h : ∀ c ∈ l, isPySpace c = true) : l.dropWhile isPySpace = [] := by
  induction l with
  | nil => rfl
  | cons a t ih =>
    rw [List.dropWhile_cons, h a (List.mem_cons_self a t)]
    simpa using ih (fun c hc => h c (List.mem_cons_of_mem a hc))

theorem pyStripChars_nil_of_all_space (l : List Char)
    (h : ∀ c ∈ l, isPySpace c = true) : pyStripChars l = [] := by
  unfold pyStripChars
  rw [dropWhile_eq_nil_of_all_space l h]
  rfl

theorem isPySpace_eq_false_of_isDigit (c : Char) (h : c.isDigit = true) :
    isPySpace c = false := by
  cases hsp : isPySpace c
  · rfl
  · exfalso
    unfold isPySpace at hsp
    simp only [Bool.or_eq_true, beq_iff_eq] at hsp
    rcases hsp with ((((h1 | h1) | h1) | h1) | h1) | h1 <;>
      (subst h1; exact absurd h (by decide))

theorem getLast?_mem_of_ne_nil (l : List Char) (h : l ≠ []) :
    ∃ c, l.getLast? = some c ∧ c ∈ l := by
  induction l with
  | nil => exact absurd rfl h
  | cons a t ih =>
    cases t with
    | nil => exact ⟨a, rfl, List.mem_singleton_self a⟩
    | cons b u =>
      obtain ⟨c, hc, hmem⟩ := ih (by simp)
      exact ⟨c, by rw [List.getLast?_cons_cons]; exact hc,
        List.mem_cons_of_mem a hmem⟩

/-- C8: the tokens `Z`, `E`, the empty token and every whitespace-only token
normalize to absence (`none`), never to the value `0`. -/
theorem C8_thm :
    parse_german_number "Z" = none ∧ parse_german_number "E" = none ∧
    parse_german_number "" = none ∧
    (∀ l : List Char, (∀ c ∈ l, isPySpace c = true) →
      parse_german_number (String.mk l) = none) := by
  refine ⟨by decide, by decide, by decide, ?_⟩
  intro l h
  unfold parse_german_number
  have hmk : (String.mk l).toList = l := rfl
  rw [hmk, pyStripChars_nil_of_all_space l h]
  rw [if_pos (Or.inr (Or.inl rfl))]

theorem C8_witness : parse_german_number (String.mk [' ', ' ']) = none :=
  C8_thm.2.2.2 [' ', ' '] (by decide)

/-- C4: for a token consisting of a nonempty digit run, optionally followed
by a trailing `-`, the normalizer returns the digit run read as an integer
number of sub-units divided by 100, negated when the `-` is present; this
value equals the integer formed by dropping the last two digits plus the
last two digits divided by 100 (and for runs of length at most 2 the leading
part is 0, so it is the token's numeric value divided by 100). -/
theorem C4_thm (ds : List Char) (neg : Bool)
    (hne : ds ≠ []) (hdig : ∀ c ∈ ds, c.isDigit = true) :
    parse_german_number (String.mk (ds ++ (if neg then ['-'] else []))) =
      some ((if neg then (-1 : ℚ) else 1) *
        (((digitsToNat ds / 100 : ℕ) : ℚ) +
          ((digitsToNat ds % 100 : ℕ) : ℚ) / 100)) ∧
    ((digitsToNat ds / 100 : ℕ) : ℚ) + ((digitsToNat ds % 100 : ℕ) : ℚ) / 100 =
      ((digitsToNat ds : ℕ) : ℚ) / 100 := by
  have harith : ((digitsToNat ds / 100 : ℕ) : ℚ) +
      ((digitsToNat ds % 100 : ℕ) : ℚ) / 100 =
      ((digitsToNat ds : ℕ) : ℚ) / 100 := by
    have h := Nat.div_add_mod (digitsToNat ds) 100
    have h2 : ((100 * (digitsToNat ds / 100) + digitsToNat ds % 100 : ℕ) : ℚ) =
        ((digitsToNat ds : ℕ) : ℚ) := by exact_mod_cast congrArg Nat.cast h
    push_cast at h2
    field_simp
    linarith
  refine ⟨?_, harith⟩
  have htail : ∀ c ∈ ds ++ (if neg then ['-'] else []), c.isDigit = true ∨ c = '-' := by
    intro c hc
    rcases List.mem_append.mp hc with h | h
    · exact Or.inl (hdig c h)
    · right
      cases neg with
      | true => simpa using h
      | false => simp at h
  have hnospace : ∀ c ∈ ds ++ (if neg then ['-'] else []), isPySpace c = false := by
    intro c hc
    rcases htail c hc with h | h
    · exact isPySpace_eq_false_of_isDigit c h
    · subst h; decide
  have hlne : ds ++ (if neg then ['-'] else []) ≠ [] := by
    cases ds with
    | nil => exact absurd rfl hne
    | cons a t => simp
  have hstrip : pyStripChars (ds ++ (if neg then ['-'] else [])) =
      ds ++ (if neg then ['-'] else []) := pyStripChars_id _ hnospace
  have hnotZ : ds ++ (if neg then ['-'] else []) ≠ ['Z'] := by
    intro h
    have hm : 'Z' ∈ ds ++ (if neg then ['-'] else []) := by
      rw [h]; exact List.mem_singleton_self _
    rcases htail _ hm with hd | hd
    · exact absurd hd (by decide)
    · exact absurd hd (by decide)
  have hnotE : ds ++ (if neg then ['-'] else []) ≠ ['E'] := by
    intro h
    have hm : 'E' ∈ ds ++ (if neg then ['-'] else []) := by
      rw [h]; exact List.mem_singleton_self _
    rcases htail _ hm with hd | hd
    · exact absurd hd (by decide)
    · exact absurd hd (by decide)
  have hfilter : ds.filter Char.isDigit = ds := List.filter_eq_self.mpr hdig
  have hmk : (String.mk (ds ++ (if neg then ['-'] else []))).toList =
      ds ++ (if neg then ['-'] else []) := rfl
  unfold parse_german_number
  rw [hmk, hstrip, if_neg (by push_neg; exact ⟨hlne, hlne, hnotZ, hnotE⟩)]
  cases neg with
  | true =>
    simp only [if_true]
    unfold pgnCore
    rw [List.getLast?_concat]
    simp only [beq_self_eq_true, if_true, List.dropLast_concat, hfilter]
    unfold pgnDigits
    rw [if_neg hne]
    simp only [if_true]
    rw [pgnDigits_val, harith]
    push_cast
    ring_nf
  | false =>
    simp only [Bool.false_eq_true, if_false, List.append_nil]
    obtain ⟨c, hc, hcmem⟩ := getLast?_mem_of_ne_nil ds hne
    have hcd : c ≠ '-' := by
      intro he
      have := hdig c hcmem
      rw [he] at this
      exact absurd this (by decide)
    unfold pgnCore
    rw [hc]
    have hbeq : (some c == some '-') = false := by
      simp [hcd]
    rw [hbeq]
    simp only [Bool.false_eq_true, if_false, hfilter]
    unfold pgnDigits
    rw [if_neg hne]
    simp only [Bool.false_eq_true, if_false]
    rw [pgnDigits_val, harith]
    push_cast
    ring_nf

theorem C4_witness :
    parse_german_number (String.mk (['1', '2', '3', '4', '5'] ++
        (if false then ['-'] else []))) =
      some ((if false then (-1 : ℚ) else 1) *
        (((digitsToNat ['1', '2', '3', '4', '5'] / 100 : ℕ) : ℚ) +
          ((digitsToNat ['1', '2', '3', '4', '5'] % 100 : ℕ) : ℚ) / 100)) :=
  (C4_thm ['1', '2', '3', '4', '5'] false (by decide) (by decide)).1

/-! ### Behaviour of the row classifier -/

theorem classifyStep_header (st : PageState) (w0 : Word) (ws : List Word)
    (h : isHeaderTok w0) :
    classifyStep st (w0 :: ws) =
      ⟨sealCurrent st,
       some (_parse_row { pers_nr := w0.text } (w0 :: ws) RowType.main 60)⟩ := by
  simp only [classifyStep]
  rw [if_pos h]

theorem classifyStep_none (st : PageState) (w0 : Word) (ws : List Word)
    (h : ¬ isHeaderTok w0) (hc : st.current = none) :
    classifyStep st (w0 :: ws) = st := by
  obtain ⟨emps, cur⟩ := st
  simp only at hc
  subst hc
  simp only [classifyStep]
  rw [if_neg h]

theorem classifyStep_cont (st : PageState) (w0 : Word) (ws : List Word)
    (e : EmployeeRecord) (h : ¬ isHeaderTok w0) (hc : st.current = some e) :
    classifyStep st (w0 :: ws) =
      ⟨st.employees,
        some (
          if w0.text ∈ TAX_ROW_CODES then
            _parse_row (withCode (withRowText e (w0 :: ws)) w0.text) (w0 :: ws)
              RowType.tax 130
          else if w0.text ∈ AG_ROW_CODES then
            _parse_row (withCode (withRowText e (w0 :: ws)) w0.text) (w0 :: ws)
              RowType.ag 65
          else if w0.text ∈ MINIJOB_ROW_CODES then
            _parse_row (withCode (withRowText e (w0 :: ws)) w0.text) (w0 :: ws)
              RowType.minijob 65
          else withRowText e (w0 :: ws))⟩ := by
  obtain ⟨emps, cur⟩ := st
  simp only at hc
  subst hc
  simp only [classifyStep]
  rw [if_neg h]
  split_ifs <;> rfl

/-- C6: a row is classified as Header exactly when its first token is a
5-digit numeric string outside the fixed employer-row and minijob-row code
sets whose left edge is inside the left margin band (`x0 < 35`); classifying
a Header seals any open record (appending it to the output) and opens a new
record whose `pers_nr` is the token; otherwise no record is sealed and the
open record's `pers_nr` is unchanged. -/
theorem C6_thm (st : PageState) (w0 : Word) (ws : List Word) :
    (isHeaderTok w0 ↔
      (pyIsDigit w0.text.toList = true ∧ w0.text.length = 5 ∧
        w0.text ∉ AG_ROW_CODES ∧ w0.text ∉ MINIJOB_ROW_CODES ∧ w0.x0 < 35)) ∧
    (isHeaderTok w0 →
      classifyStep st (w0 :: ws) =
        ⟨sealCurrent st,
         some (_parse_row { pers_nr := w0.text } (w0 :: ws) RowType.main 60)⟩ ∧
      (_parse_row { pers_nr := w0.text } (w0 :: ws) RowType.main 60).pers_nr =
        w0.text) ∧
    (¬ isHeaderTok w0 →
      (classifyStep st (w0 :: ws)).employees = st.employees ∧
      Option.map EmployeeRecord.pers_nr (classifyStep st (w0 :: ws)).current =
        Option.map EmployeeRecord.pers_nr st.current) := by
  refine ⟨Iff.rfl, ?_, ?_⟩
  · intro h
    exact ⟨classifyStep_header st w0 ws h,
      (parse_row_effects { pers_nr := w0.text } (w0 :: ws) RowType.main 60).2.2⟩
  · intro h
    cases hc : st.current with
    | none => rw [classifyStep_none st w0 ws h hc, hc]; exact ⟨rfl, rfl⟩
    | some e =>
      rw [classifyStep_cont st w0 ws e h hc]
      refine ⟨rfl, ?_⟩
      show some _ = some e.pers_nr
      congr 1
      by_cases h1 : w0.text ∈ TAX_ROW_CODES
      · rw [if_pos h1]
        exact (parse_row_effects _ (w0 :: ws) RowType.tax 130).2.2
      · rw [if_neg h1]
        by_cases h2 : w0.text ∈ AG_ROW_CODES
        · rw [if_pos h2]
          exact (parse_row_effects _ (w0 :: ws) RowType.ag 65).2.2
        · rw [if_neg h2]
          by_cases h3 : w0.text ∈ MINIJOB_ROW_CODES
          · rw [if_pos h3]
            exact (parse_row_effects _ (w0 :: ws) RowType.minijob 65).2.2
          · rw [if_neg h3]; rfl

theorem C6_witness :
    classifyStep ⟨[], none⟩ [⟨"12345", 10, 100⟩] =
      ⟨sealCurrent ⟨[], none⟩,
       some (_parse_row { pers_nr := "12345" } [⟨"12345", 10, 100⟩]
         RowType.main 60)⟩ :=
  ((C6_thm ⟨[], none⟩ ⟨"12345", 10, 100⟩ []).2.1 (by decide)).1

/-- C3 (amended): a row whose leading token matches no row-kind rule is
dropped with no effect at all while no record is open; while a record is
open, its only effect is that the row's reconstructed text is appended to
the open record's `raw_lines` — no field assignment, no `sub_row_codes`
entry, no sealing. -/
theorem C3_amended_thm (st : PageState) (w0 : Word) (ws : List Word)
    (hh : ¬ isHeaderTok w0)
    (ht : w0.text ∉ TAX_ROW_CODES) (ha : w0.text ∉ AG_ROW_CODES)
    (hm : w0.text ∉ MINIJOB_ROW_CODES) :
    (st.current = none → classifyStep st (w0 :: ws) = st) ∧
    (∀ e, st.current = some e →
      classifyStep st (w0 :: ws) =
        ⟨st.employees,
         some { e with raw_lines := e.raw_lines ++ [joinTexts (w0 :: ws)] }⟩) := by
  constructor
  · intro hc; exact classifyStep_none st w0 ws hh hc
  · intro e hc
    rw [classifyStep_cont st w0 ws e hh hc]
    rw [if_neg ht, if_neg ha, if_neg hm]
    rfl

theorem C3_witness :
    classifyStep ⟨[], some { pers_nr := "12345" }⟩ [⟨"99999", 40, 104⟩] =
      ⟨[], some { ({ pers_nr := "12345" } : EmployeeRecord) with
          raw_lines := ({ pers_nr := "12345" } : EmployeeRecord).raw_lines ++
            [joinTexts [⟨"99999", 40, 104⟩]] }⟩ :=
  (C3_amended_thm ⟨[], some { pers_nr := "12345" }⟩ ⟨"99999", 40, 104⟩ []
      (by decide) (by decide) (by decide) (by decide)).2
    { pers_nr := "12345" } rfl

/-! ### Audit-sequence bookkeeping -/

theorem classifyStep_cont_audit (st : PageState) (w0 : Word) (ws : List Word)
    (e : EmployeeRecord) (h : ¬ isHeaderTok w0) (hc : st.current = some e) :
    (classifyStep st (w0 :: ws)).employees = st.employees ∧
    ∃ e', (classifyStep st (w0 :: ws)).current = some e' ∧
      e'.sub_row_codes = e.sub_row_codes ++ (rowCode (w0 :: ws)).toList ∧
      e'.raw_lines = e.raw_lines ++ [joinTexts (w0 :: ws)] := by
  rw [classifyStep_cont st w0 ws e h hc]
  refine ⟨rfl, _, rfl, ?_⟩
  by_cases h1 : w0.text ∈ TAX_ROW_CODES
  · have hcode : rowCode (w0 :: ws) = some w0.text := by
      simp only [rowCode]; rw [if_pos (Or.inl h1)]
    rw [if_pos h1, hcode]
    have hp := parse_row_effects (withCode (withRowText e (w0 :: ws)) w0.text)
      (w0 :: ws) RowType.tax 130
    refine ⟨?_, ?_⟩
    · rw [hp.2.1]; rfl
    · rw [hp.1, if_neg (by decide : ¬(RowType.tax = RowType.main))]; rfl
  · rw [if_neg h1]
    by_cases h2 : w0.text ∈ AG_ROW_CODES
    · have hcode : rowCode (w0 :: ws) = some w0.text := by
        simp only [rowCode]; rw [if_pos (Or.inr (Or.inl h2))]
      rw [if_pos h2, hcode]
      have hp := parse_row_effects (withCode (withRowText e (w0 :: ws)) w0.text)
        (w0 :: ws) RowType.ag 65
      refine ⟨?_, ?_⟩
      · rw [hp.2.1]; rfl
      · rw [hp.1, if_neg (by decide : ¬(RowType.ag = RowType.main))]; rfl
    · rw [if_neg h2]
      by_cases h3 : w0.text ∈ MINIJOB_ROW_CODES
      · have hcode : rowCode (w0 :: ws) = some w0.text := by
          simp only [rowCode]; rw [if_pos (Or.inr (Or.inr h3))]
        rw [if_pos h3, hcode]
        have hp := parse_row_effects (withCode (withRowText e (w0 :: ws)) w0.text)
          (w0 :: ws) RowType.minijob 65
        refine ⟨?_, ?_⟩
        · rw [hp.2.1]; rfl
        · rw [hp.1, if_neg (by decide : ¬(RowType.minijob = RowType.main))]; rfl
      · have hcode : rowCode (w0 :: ws) = none := by
          simp only [rowCode]
          rw [if_neg]
          push_neg
          exact ⟨h1, h2, h3⟩
        rw [if_neg h3, hcode]
        exact ⟨by simp [withRowText, withCode], rfl⟩

theorem subRowCodesOf_cons_skip (kr : ℤ × List Word)
    (rest : List (ℤ × List Word)) (h : kr.2 = [] ∨ kr.1 < 95) :
    subRowCodesOf (kr :: rest) = subRowCodesOf rest := by
  simp [subRowCodesOf, List.filterMap_cons, h]

theorem rawTextsOf_cons_skip (kr : ℤ × List Word)
    (rest : List (ℤ × List Word)) (h : kr.2 = [] ∨ kr.1 < 95) :
    rawTextsOf (kr :: rest) = rawTextsOf rest := by
  simp [rawTextsOf, List.filterMap_cons, h]

theorem subRowCodesOf_cons_processed (kr : ℤ × List Word)
    (rest : List (ℤ × List Word)) (h : ¬(kr.2 = [] ∨ kr.1 < 95)) :
    subRowCodesOf (kr :: rest) = (rowCode kr.2).toList ++ subRowCodesOf rest := by
  simp only [subRowCodesOf, List.filterMap_cons, if_neg h]
  cases rowCode kr.2 <;> simp

theorem rawTextsOf_cons_processed (kr : ℤ × List Word)
    (rest : List (ℤ × List Word)) (h : ¬(kr.2 = [] ∨ kr.1 < 95)) :
    rawTextsOf (kr :: rest) = joinTexts kr.2 :: rawTextsOf rest := by
  simp only [rawTextsOf, List.filterMap_cons, if_neg h]

theorem pageStateEta (st : PageState) (a : List EmployeeRecord)
    (c : Option EmployeeRecord) (h1 : st.employees = a) (h2 : st.current = c) :
    st = ⟨a, c⟩ := by
  cases st
  cases h1
  cases h2
  rfl

/-- C2 (amended): `sub_row_codes` and `raw_lines` are append-only, but their
lengths differ: a record opened by a Header row starts with
`raw_lines = [header row text]` and `sub_row_codes = []`; thereafter, while
it stays open, *every* processed row appends its reconstructed text to
`raw_lines` (classified or not), while only classified (tax / employer /
minijob) rows append their leading code to `sub_row_codes`.  Hence
`sub_row_codes` has one entry per classified non-Header row, while
`raw_lines` has one entry for the Header row plus one per row seen while the
record was open. -/
theorem C2_amended_thm :
    (∀ (st : PageState) (w0 : Word) (ws : List Word),
      isHeaderTok w0 →
      ∃ e, (classifyStep st (w0 :: ws)).current = some e ∧
        e.raw_lines = [joinTexts (w0 :: ws)] ∧ e.sub_row_codes = []) ∧
    (∀ (krs : List (ℤ × List Word)) (emps : List EmployeeRecord)
        (e : EmployeeRecord),
      (∀ kr ∈ krs, ¬(kr.2 = [] ∨ kr.1 < 95) → isHeaderRow kr.2 = false) →
      (krs.foldl pageStep ⟨emps, some e⟩).employees = emps ∧
      ∃ e', (krs.foldl pageStep ⟨emps, some e⟩).current = some e' ∧
        e'.sub_row_codes = e.sub_row_codes ++ subRowCodesOf krs ∧
        e'.raw_lines = e.raw_lines ++ rawTextsOf krs) := by
  constructor
  · intro st w0 ws h
    rw [classifyStep_header st w0 ws h]
    refine ⟨_, rfl, ?_, ?_⟩
    · have hp := (parse_row_effects { pers_nr := w0.text } (w0 :: ws)
        RowType.main 60).1
      rw [if_pos rfl] at hp
      simpa using hp
    · exact (parse_row_effects { pers_nr := w0.text } (w0 :: ws)
        RowType.main 60).2.1
  · intro krs
    induction krs with
    | nil =>
      intro emps e _
      exact ⟨rfl, e, rfl, by simp [subRowCodesOf], by simp [rawTextsOf]⟩
    | cons kr rest ih =>
      intro emps e h
      by_cases hskip : kr.2 = [] ∨ kr.1 < 95
      · have hstep : pageStep ⟨emps, some e⟩ kr = ⟨emps, some e⟩ := by
          unfold pageStep; rw [if_pos hskip]
        simp only [List.foldl_cons, hstep]
        have hrec := ih emps e
          (fun kr' hk hp => h kr' (List.mem_cons_of_mem kr hk) hp)
        rw [subRowCodesOf_cons_skip kr rest hskip,
          rawTextsOf_cons_skip kr rest hskip]
        exact hrec
      · have hstep : pageStep ⟨emps, some e⟩ kr =
            classifyStep ⟨emps, some e⟩ kr.2 := by
          unfold pageStep; rw [if_neg hskip]
        obtain ⟨w0, ws, hkr⟩ : ∃ w0 ws, kr.2 = w0 :: ws := by
          cases hk : kr.2 with
          | nil => exact absurd (Or.inl hk) hskip
          | cons a t => exact ⟨a, t, rfl⟩
        have hnh : ¬ isHeaderTok w0 := by
          have hb := h kr (List.mem_cons_self kr rest) hskip
          rw [hkr] at hb
          simpa [isHeaderRow] using hb
        obtain ⟨hemp, e₂, hcur, hcodes2, hraw2⟩ :=
          classifyStep_cont_audit ⟨emps, some e⟩ w0 ws e hnh rfl
        have hstate := pageStateEta _ _ _ hemp hcur
        simp only [List.foldl_cons, hstep, hkr, hstate]
        have hrec := ih emps e₂
          (fun kr' hk hp => h kr' (List.mem_cons_of_mem kr hk) hp)
        refine ⟨hrec.1, ?_⟩
        obtain ⟨e', he'c, he's, he'r⟩ := hrec.2
        refine ⟨e', he'c, ?_, ?_⟩
        · rw [he's, hcodes2, subRowCodesOf_cons_processed kr rest hskip, hkr,
            List.append_assoc]
        · rw [he'r, hraw2, rawTextsOf_cons_processed kr rest hskip, hkr,
            List.append_assoc]
          rfl

theorem C2_witness :
    (∃ e, (classifyStep ⟨[], none⟩ [⟨"12345", 10, 100⟩]).current = some e ∧
      e.raw_lines = [joinTexts [⟨"12345", 10, 100⟩]] ∧ e.sub_row_codes = []) ∧
    (([((100 : ℤ), [⟨"1", 40, 100⟩])].foldl pageStep
        ⟨[], some { pers_nr := "12345" }⟩).employees = [] ∧
      ∃ e', ([((100 : ℤ), [⟨"1", 40, 100⟩])].foldl pageStep
          ⟨[], some { pers_nr := "12345" }⟩).current = some e' ∧
        e'.sub_row_codes =
          ({ pers_nr := "12345" } : EmployeeRecord).sub_row_codes ++
            subRowCodesOf [((100 : ℤ), [⟨"1", 40, 100⟩])] ∧
        e'.raw_lines =
          ({ pers_nr := "12345" } : EmployeeRecord).raw_lines ++
            rawTextsOf [((100 : ℤ), [⟨"1", 40, 100⟩])]) :=
  ⟨C2_amended_thm.1 ⟨[], none⟩ ⟨"12345", 10, 100⟩ [] (by decide),
   C2_amended_thm.2 [((100 : ℤ), [⟨"1", 40, 100⟩])] []
     { pers_nr := "12345" } (by decide)⟩

/-! ### No parser state crosses a page boundary -/

theorem sealCurrent_shift (emps l : List EmployeeRecord)
    (cur : Option EmployeeRecord) :
    sealCurrent ⟨emps ++ l, cur⟩ = emps ++ sealCurrent ⟨l, cur⟩ := by
  cases cur with
  | none => rfl
  | some e => simp [sealCurrent]

theorem classifyStep_shift (emps l : List EmployeeRecord)
    (cur : Option EmployeeRecord) (rowWords : List Word) :
    classifyStep ⟨emps ++ l, cur⟩ rowWords =
      ⟨emps ++ (classifyStep ⟨l, cur⟩ rowWords).employees,
       (classifyStep ⟨l, cur⟩ rowWords).current⟩ := by
  cases rowWords with
  | nil => rfl
  | cons w0 ws =>
    by_cases h : isHeaderTok w0
    · rw [classifyStep_header _ w0 ws h, classifyStep_header _ w0 ws h,
        sealCurrent_shift]
    · cases cur with
      | none =>
        rw [classifyStep_none _ w0 ws h rfl, classifyStep_none _ w0 ws h rfl]
      | some e =>
        rw [classifyStep_cont _ w0 ws e h rfl, classifyStep_cont _ w0 ws e h rfl]

theorem foldl_pageStep_shift (krs : List (ℤ × List Word))
    (emps l : List EmployeeRecord) (cur : Option EmployeeRecord) :
    krs.foldl pageStep ⟨emps ++ l, cur⟩ =
      ⟨emps ++ (krs.foldl pageStep ⟨l, cur⟩).employees,
       (krs.foldl pageStep ⟨l, cur⟩).current⟩ := by
  induction krs generalizing l cur with
  | nil => rfl
  | cons kr rest ih =>
    simp only [List.foldl_cons]
    by_cases h : kr.2 = [] ∨ kr.1 < 95
    · have h1 : pageStep ⟨emps ++ l, cur⟩ kr = ⟨emps ++ l, cur⟩ := by
        unfold pageStep; rw [if_pos h]
      have h2 : pageStep ⟨l, cur⟩ kr = ⟨l, cur⟩ := by
        unfold pageStep; rw [if_pos h]
      rw [h1, h2]
      exact ih l cur
    · have h1 : pageStep ⟨emps ++ l, cur⟩ kr =
          classifyStep ⟨emps ++ l, cur⟩ kr.2 := by
        unfold pageStep; rw [if_neg h]
      have h2 : pageStep ⟨l, cur⟩ kr = classifyStep ⟨l, cur⟩ kr.2 := by
        unfold pageStep; rw [if_neg h]
      rw [h1, h2, classifyStep_shift]
      exact ih _ _

theorem parse_page_shift (emps : List EmployeeRecord) (words : List Word) :
    _parse_page emps words = emps ++ _parse_page [] words := by
  unfold _parse_page
  rw [show (⟨emps, none⟩ : PageState) = ⟨emps ++ [], none⟩ by simp,
    foldl_pageStep_shift, sealCurrent_shift]

/-- C1 (amended): no open-record state survives a page boundary.  Each page
is parsed from a fresh no-open-record state and any record still open at the
end of that page is sealed there, so the output of `parse` is the
concatenation of the independent per-page outputs; in particular a
continuation row at the start of a later page, before any new Header, is
*not* mapped into the previous page's record (it is dropped). -/
theorem C1_amended_thm (pages : List (List Word)) :
    parse pages = (pages.map (fun p => _parse_page [] p)).flatten := by
  have gen : ∀ (ps : List (List Word)) (acc : List EmployeeRecord),
      ps.foldl _parse_page acc =
        acc ++ (ps.map (fun p => _parse_page [] p)).flatten := by
    intro ps
    induction ps with
    | nil => intro acc; simp
    | cons p rest ih =>
      intro acc
      simp only [List.foldl_cons, List.map_cons, List.flatten_cons]
      rw [parse_page_shift acc p, ih, List.append_assoc]
  simpa using gen pages []

end Lohnjournal
